import Mathlib

/-
Verification of the batched log-ingestion pipeline of
nobrainghost/heroku-logdrains-go-server (main.go).

Go strings are modelled as lists of characters (`Str`), machine time
(`time.Now()`) as an abstract `Nat` tick handed to the decoder, the
database handle as a function parameter `Store`, and the two goroutine
event sources of `flushLogs` (channel receive, ticker fire) as an event
alphabet folded over a scheduler state.  Side effects (the single
`db.Exec` call, the `fmt.Println` of a batch error) are made observable
as instrumentation fields of the state.
-/

namespace LogSrv

abbrev Str := List Char

/-- Go `unicode.IsSpace`: the Unicode white-space code points Go trims
in `strings.TrimSpace`. -/
def goIsSpace (c : Char) : Bool :=
  [9, 10, 11, 12, 13, 32, 0x85, 0xA0, 0x1680, 0x2028, 0x2029,
   0x202F, 0x205F, 0x3000].contains c.toNat
  || (0x2000 ≤ c.toNat && c.toNat ≤ 0x200A)

/-- Go `strings.TrimSpace`: drop white space from both ends (main.go line 144). -/
def trimSpace (s : Str) : Str :=
  ((s.dropWhile goIsSpace).reverse.dropWhile goIsSpace).reverse

/-- Split at the first space character: `none` when the string has no
space, otherwise the part before and the part after the first space. -/
def breakAtSpace : Str → Option (Str × Str)
  | [] => none
  | c :: cs =>
    if c = ' ' then some ([], cs)
    else
      match breakAtSpace cs with
      | none => none
      | some (a, b) => some (c :: a, b)

/-- Go `strings.SplitN(s, " ", 2)` (main.go line 145). -/
def splitN2 (s : Str) : List Str :=
  match breakAtSpace s with
  | none => [s]
  | some (a, b) => [a, b]

/-- The decode slice of `receiveLogs` (main.go lines 144-150): trim the
body, split on the first space, reject when fewer than two parts result. -/
def decodeLine (body : Str) : Option (Str × Str) :=
  let logData := trimSpace body
  let parts := splitN2 logData
  if parts.length < 2 then none
  else some (parts.getD 0 [], parts.getD 1 [])

/-- main.go lines 24-28. `time.Time` is modelled as an abstract tick. -/
structure LogEntry where
  Source : Str
  TimeStamp : Nat
  Message : Str
deriving DecidableEq

/-- Does the second string occur at the head of the first? (helper for
`strContains` and `trimSuffix`). -/
def leadsWith : Str → Str → Bool
  | [], _ => true
  | _ :: _, [] => false
  | a :: as, b :: bs => a = b && leadsWith as bs

/-- Go `strings.Contains(s, sub)`. -/
def strContains : Str → Str → Bool
  | [], sub => leadsWith sub []
  | c :: rest, sub => leadsWith sub (c :: rest) || strContains rest sub

/-- `receiveLogs` (main.go lines 131-161) as a function of the request:
User-Agent admission check, then decode; returns the HTTP status and the
entry pushed to `logChannel` (if any).  `now` is the `time.Now()` value
captured when the entry is built. -/
def receiveLogs (userAgent body : Str) (now : Nat) : Nat × Option LogEntry :=
  if !strContains userAgent ("Logplex".toList)
      && !strContains userAgent ("logfwd".toList) then
    (401, none)
  else
    match decodeLine body with
    | none => (400, none)
    | some (source, message) => (200, some ⟨source, now, message⟩)

/-- A positional argument of the insert statement (`args` in
`batchSaveLogs`): a string column or a timestamp. -/
inductive Arg where
  | s (v : Str)
  | t (v : Nat)
deriving DecidableEq

abbrev Err := Str

/-- The store (`db.Exec`) as an abstract parameter: a query and its
arguments yield `none` on success or `some e` on failure. -/
abbrev Store := Str → List Arg → Option Err

/-- The three arguments appended per entry (main.go line 89). -/
def entryArgs (e : LogEntry) : List Arg :=
  [Arg.s e.Source, Arg.t e.TimeStamp, Arg.s e.Message]

def natStr (n : Nat) : Str := Nat.toDigits 10 n

/-- `fmt.Sprintf("($%d, $%d, $%d)", i*3+1, i*3+2, i*3+3)` (main.go line 88,
without the trailing comma the loop adds). -/
def placeholderTuple (i : Nat) : Str :=
  '(' :: '$' :: natStr (i * 3 + 1)
    ++ ',' :: ' ' :: '$' :: natStr (i * 3 + 2)
    ++ ',' :: ' ' :: '$' :: natStr (i * 3 + 3)
    ++ [')']

def queryHead : Str := "INSERT INTO logs (source, timestamp, message) VALUES ".toList

/-- The query text accumulated by the loop of main.go lines 87-90: one
placeholder tuple per entry, each followed by a comma. -/
def buildQueryLoop : Nat → List LogEntry → Str
  | _, [] => []
  | i, _ :: ls => placeholderTuple i ++ ',' :: buildQueryLoop (i + 1) ls

/-- The argument list accumulated by the same loop (main.go line 89). -/
def buildArgsLoop : List LogEntry → List Arg
  | [] => []
  | l :: ls => entryArgs l ++ buildArgsLoop ls

/-- Go `strings.TrimSuffix` (main.go line 91). -/
def trimSuffix (s suf : Str) : Str :=
  if leadsWith suf.reverse s.reverse then s.take (s.length - suf.length) else s

/-- The full query of `batchSaveLogs`: head, tuples, trailing comma removed. -/
def buildQuery (logs : List LogEntry) : Str :=
  trimSuffix (queryHead ++ buildQueryLoop 0 logs) [',']

/-- `batchSaveLogs` (main.go lines 79-96).  Returns the result of the
single `db.Exec` call together with the list of store calls made, so
that "no store call" is observable. -/
def batchSaveLogs (store : Store) (logs : List LogEntry) :
    Option Err × List (Str × List Arg) :=
  if logs.length = 0 then (none, [])
  else
    (store (buildQuery logs) (buildArgsLoop logs),
     [(buildQuery logs, buildArgsLoop logs)])

/-- The two event sources multiplexed by the `select` of `flushLogs`
(main.go lines 105-121): a channel receive and a ticker fire. -/
inductive Event where
  | entryArrived (e : LogEntry)
  | timerFired

/-- State of the `flushLogs` goroutine.  `logs` is the PendingBatch
slice; `written`, `calls` and `loggedErrors` record, respectively, the
batches handed to `batchSaveLogs`, the store calls performed, and the
errors printed by line 116. -/
structure SchedState where
  logs : List LogEntry
  written : List (List LogEntry)
  calls : List (Str × List Arg)
  loggedErrors : List Err
deriving DecidableEq

def initState : SchedState := ⟨[], [], [], []⟩

/-- One iteration of the `flushLogs` loop (main.go lines 105-121):
an arriving entry is appended under the mutex; a ticker fire with a
non-empty batch calls `batchSaveLogs`, prints the error if any, and
sets `logs = nil`; a ticker fire with an empty batch does nothing. -/
def schedStep (store : Store) (st : SchedState) : Event → SchedState
  | .entryArrived e => { st with logs := st.logs ++ [e] }
  | .timerFired =>
    if st.logs.length > 0 then
      let r := batchSaveLogs store st.logs
      { logs := []
        written := st.written ++ [st.logs]
        calls := st.calls ++ r.2
        loggedErrors := st.loggedErrors
          ++ (match r.1 with | some msg => [msg] | none => []) }
    else st

def runSched (store : Store) (st : SchedState) (evs : List Event) : SchedState :=
  evs.foldl (schedStep store) st

/-- Whole-server events: an HTTP POST /logs request, or a ticker fire. -/
inductive SysEvent where
  | request (ua body : Str) (now : Nat)
  | tick

/-- Server state: the flush goroutine's state plus the HTTP statuses
acknowledged to producers, in order. -/
structure SysState where
  sched : SchedState
  acks : List Nat
deriving DecidableEq

def sysInit : SysState := ⟨initState, []⟩

/-- One server step: a request runs `receiveLogs`, its status is sent
back at once, and an accepted entry travels through `logChannel` to the
flush loop; a tick runs the flush case. -/
def sysStep (store : Store) (st : SysState) : SysEvent → SysState
  | .request ua body now =>
    let r := receiveLogs ua body now
    { sched :=
        match r.2 with
        | some e => schedStep store st.sched (Event.entryArrived e)
        | none => st.sched
      acks := st.acks ++ [r.1] }
  | .tick => { st with sched := schedStep store st.sched Event.timerFired }

def sysRun (store : Store) (st : SysState) (evs : List SysEvent) : SysState :=
  evs.foldl (sysStep store) st

/-- `make(chan LogEntry, 100)` (main.go line 21). -/
def logChannelCapacity : Nat := 100

/-- Go buffered-channel send: succeeds (appending the element) when a
slot is free, otherwise the sender blocks — `none` means the send does
not complete and the element is retained by the sender, never dropped. -/
def chanSend (buf : List LogEntry) (e : LogEntry) : Option (List LogEntry) :=
  if buf.length < logChannelCapacity then some (buf ++ [e]) else none

/-- Go buffered-channel receive: takes the oldest element, freeing a slot. -/
def chanRecv (buf : List LogEntry) : Option (LogEntry × List LogEntry) :=
  match buf with
  | [] => none
  | e :: rest => some (e, rest)

/-- The atomic actions inside one arm of the `flushLogs` select, in
program order, for reasoning about what happens between `mu.Lock()` and
`mu.Unlock()`. -/
inductive MicroAction where
  | lock
  | unlock
  | appendEntry
  | storeWrite
  | clearBatch
deriving DecidableEq

/-- The entry-arrived arm (main.go lines 107-110): lock, append, unlock. -/
def entryCaseActions : List MicroAction :=
  [MicroAction.lock, MicroAction.appendEntry, MicroAction.unlock]

/-- The ticker arm (main.go lines 112-120): lock; when the batch is
non-empty, the `batchSaveLogs` store write and the `logs = nil` clear
both happen before the unlock. -/
def tickCaseActions (hasLogs : Bool) : List MicroAction :=
  if hasLogs then
    [MicroAction.lock, MicroAction.storeWrite, MicroAction.clearBatch,
     MicroAction.unlock]
  else
    [MicroAction.lock, MicroAction.unlock]

def occursLockedAux : Nat → List MicroAction → MicroAction → Bool
  | _, [], _ => false
  | d, x :: xs, a =>
    (decide (x = a) && decide (0 < d))
    || occursLockedAux
        (if x = MicroAction.lock then d + 1
         else if x = MicroAction.unlock then d - 1 else d) xs a

/-- Does action `a` occur while the mutex is held? -/
def occursLocked (acts : List MicroAction) (a : MicroAction) : Bool :=
  occursLockedAux 0 acts a

/-- The authentication and rate-limit middlewares of main.go lines 54-78. -/
inductive Mw where
  | apiAuthentication
  | rateLimitMiddleware
deriving DecidableEq

structure Route where
  verb : Str
  path : Str
  mws : List Mw
deriving DecidableEq

/-- The routing table built in `main` (main.go lines 205-211): POST /logs
with no middleware; GET /logs inside the authorized group with the
API-key and rate-limit middlewares. -/
def routes : List Route :=
  [⟨"POST".toList, "/logs".toList, []⟩,
   ⟨"GET".toList, "/logs".toList, [Mw.apiAuthentication, Mw.rateLimitMiddleware]⟩]

def mwsOf (verb path : Str) : List Mw :=
  match routes.find? (fun r => r.verb == verb && r.path == path) with
  | some r => r.mws
  | none => []

/-- A store that always succeeds, for concrete runs. -/
def storeNone : Store := fun _ _ => none

lemma dropWhile_head_false {α : Type} (p : α → Bool) :
    ∀ (l : List α) (c : α) (t : List α), l.dropWhile p = c :: t → p c = false := by
  intro l
  induction l with
  | nil => intro c t h; simp [List.dropWhile] at h
  | cons a as ih =>
    intro c t h
    by_cases hp : p a
    · rw [List.dropWhile_cons_of_pos hp] at h
      exact ih c t h
    · rw [List.dropWhile_cons_of_neg hp] at h
      cases h
      simpa using hp

lemma trimSpace_head_not_space (s : Str) (c : Char) (t : Str)
    (h : trimSpace s = c :: t) : goIsSpace c = false := by
  unfold trimSpace at h
  set w := s.dropWhile goIsSpace with hw
  have hsuf : (w.reverse.dropWhile goIsSpace) <:+ w.reverse := List.dropWhile_suffix _
  have hpre : (w.reverse.dropWhile goIsSpace).reverse <+: w := by
    have := List.reverse_prefix.2 hsuf
    simpa using this
  rw [h] at hpre
  obtain ⟨r, hr⟩ := hpre
  have : w.dropWhile goIsSpace = w := by
    rw [hw, List.dropWhile_idempotent]
  have hw2 : w.dropWhile goIsSpace = c :: (t ++ r) := by
    rw [this, ← hr]
    simp
  exact dropWhile_head_false goIsSpace w c (t ++ r) hw2

lemma trimSpace_last_not_space (s : Str) (c : Char) (t : Str)
    (h : trimSpace s = t ++ [c]) : goIsSpace c = false := by
  unfold trimSpace at h
  have h2 : (s.dropWhile goIsSpace).reverse.dropWhile goIsSpace = c :: t.reverse := by
    have := congrArg List.reverse h
    simpa using this
  exact dropWhile_head_false goIsSpace _ c t.reverse h2

lemma breakAtSpace_none_iff (s : Str) : breakAtSpace s = none ↔ ' ' ∉ s := by
  induction s with
  | nil => simp [breakAtSpace]
  | cons c cs ih =>
    by_cases hc : c = ' '
    · subst hc; simp [breakAtSpace]
    · rw [breakAtSpace]
      rw [if_neg hc]
      cases hb : breakAtSpace cs with
      | none => simp [hb, List.mem_cons, hc] at ih ⊢; tauto
      | some ab =>
        obtain ⟨a, b⟩ := ab
        simp [hb, List.mem_cons, hc] at ih ⊢
        tauto

lemma breakAtSpace_some (s : Str) (a b : Str)
    (h : breakAtSpace s = some (a, b)) : s = a ++ ' ' :: b ∧ ' ' ∉ a := by
  induction s generalizing a b with
  | nil => simp [breakAtSpace] at h
  | cons c cs ih =>
    rw [breakAtSpace] at h
    by_cases hc : c = ' '
    · subst hc
      rw [if_pos rfl] at h
      cases h
      simp
    · rw [if_neg hc] at h
      cases hb : breakAtSpace cs with
      | none => rw [hb] at h; simp at h
      | some ab =>
        obtain ⟨a0, b0⟩ := ab
        rw [hb] at h
        simp at h
        obtain ⟨ha, hbb⟩ := h
        obtain ⟨hs, hna⟩ := ih a0 b0 hb
        subst ha hbb
        constructor
        · simp [hs]
        · intro hm
          rcases List.mem_cons.1 hm with h1 | h2
          · exact hc h1.symm
          · exact hna h2

lemma breakAtSpace_append (pre post : Str) (hpre : ' ' ∉ pre) :
    breakAtSpace (pre ++ ' ' :: post) = some (pre, post) := by
  induction pre with
  | nil => simp [breakAtSpace]
  | cons c cs ih =>
    have hc : c ≠ ' ' := by intro hc; exact hpre (by simp [hc])
    have hcs : ' ' ∉ cs := fun hm => hpre (by simp [hm])
    rw [List.cons_append, breakAtSpace, if_neg hc, ih hcs]

lemma decodeLine_eq_break (body : Str) :
    decodeLine body = breakAtSpace (trimSpace body) := by
  cases hb : breakAtSpace (trimSpace body) with
  | none => simp [decodeLine, splitN2, hb]
  | some ab => obtain ⟨a, b⟩ := ab; simp [decodeLine, splitN2, hb]

/-- C2: for every raw payload, decoding trims surrounding whitespace and
splits on the first space: when the trimmed payload has an interior space,
the request succeeds (HTTP 200) with a LogEntry whose source is the part
before the first space, whose message is the remainder of the trimmed
payload, and whose timestamp is the decode-time clock value; when the
trimmed payload has no space, the request fails with HTTP 400 and no
entry is enqueued. -/
theorem decode_contract (ua body : Str) (now : Nat)
    (h : (strContains ua ("Logplex".toList) || strContains ua ("logfwd".toList)) = true) :
    (∀ pre post : Str, ' ' ∉ pre → trimSpace body = pre ++ ' ' :: post →
        receiveLogs ua body now = (200, some ⟨pre, now, post⟩))
    ∧ (' ' ∉ trimSpace body → receiveLogs ua body now = (400, none)) := by
  have hcond : (!strContains ua ("Logplex".toList)
      && !strContains ua ("logfwd".toList)) = false := by
    rw [← Bool.not_or, h]
    rfl
  constructor
  · intro pre post hpre heq
    have hd : decodeLine body = some (pre, post) := by
      rw [decodeLine_eq_break, heq, breakAtSpace_append pre post hpre]
    unfold receiveLogs
    rw [hcond, hd]
    simp
  · intro hns
    have hd : decodeLine body = none := by
      rw [decodeLine_eq_break, (breakAtSpace_none_iff _).2 hns]
    unfold receiveLogs
    rw [hcond, hd]
    simp

/-- C2 witness: a concrete admitted payload with an interior space decodes
to the expected entry with status 200. -/
theorem decode_contract_check :
    receiveLogs ("Logplex".toList) ("  web hello  world ".toList) 5
      = (200, some ⟨"web".toList, 5, "hello  world".toList⟩) :=
  (decode_contract ("Logplex".toList) ("  web hello  world ".toList) 5
      (by decide)).1 ("web".toList) ("hello  world".toList) (by decide) (by decide)

/-- C9: every accepted payload yields an entry whose source is non-empty
and space-free and whose message is non-empty; the message is exactly the
remainder of the trimmed payload after the first space, so extra leading
spaces in the message are preserved (no re-trim). -/
theorem decoded_entry_wellformed (body src msg : Str)
    (h : decodeLine body = some (src, msg)) :
    src ≠ [] ∧ ' ' ∉ src ∧ msg ≠ [] ∧ trimSpace body = src ++ ' ' :: msg := by
  rw [decodeLine_eq_break] at h
  obtain ⟨heq, hnsp⟩ := breakAtSpace_some _ _ _ h
  refine ⟨?_, hnsp, ?_, heq⟩
  · rintro rfl
    have hh : trimSpace body = ' ' :: msg := by simpa using heq
    have := trimSpace_head_not_space body ' ' msg hh
    simp [goIsSpace] at this
  · rintro rfl
    have hh : trimSpace body = src ++ [' '] := by simpa using heq
    have := trimSpace_last_not_space body ' ' src hh
    simp [goIsSpace] at this

/-- C9 witness: the payload with extra interior spaces keeps them in the
message. -/
theorem decoded_entry_wellformed_check :
    ("a".toList ≠ ([] : Str)) ∧ ' ' ∉ "a".toList ∧ ("  b".toList ≠ ([] : Str))
      ∧ trimSpace ("a   b".toList) = "a".toList ++ ' ' :: "  b".toList :=
  decoded_entry_wellformed ("a   b".toList) ("a".toList) ("  b".toList) (by decide)

lemma runSched_append (store : Store) (st : SchedState) (l1 l2 : List Event) :
    runSched store st (l1 ++ l2) = runSched store (runSched store st l1) l2 := by
  simp [runSched, List.foldl_append]

lemma runSched_entries (store : Store) :
    ∀ (es : List LogEntry) (st : SchedState),
      runSched store st (es.map Event.entryArrived) = { st with logs := st.logs ++ es } := by
  intro es
  induction es with
  | nil => intro st; simp [runSched]
  | cons e es ih =>
    intro st
    have h1 : runSched store st ((e :: es).map Event.entryArrived)
        = runSched store (schedStep store st (Event.entryArrived e)) (es.map Event.entryArrived) := by
      simp [runSched]
    rw [h1, ih]
    simp [schedStep]

lemma runSched_single (store : Store) (st : SchedState) (ev : Event) :
    runSched store st [ev] = schedStep store st ev := rfl

lemma schedStep_tick_fields (store : Store) (st : SchedState) (h : st.logs ≠ []) :
    (schedStep store st Event.timerFired).logs = []
    ∧ (schedStep store st Event.timerFired).written = st.written ++ [st.logs]
    ∧ (schedStep store st Event.timerFired).calls
        = st.calls ++ [(buildQuery st.logs, buildArgsLoop st.logs)] := by
  have hpos : st.logs.length > 0 := List.length_pos.2 h
  have h0 : ¬ st.logs.length = 0 := Nat.pos_iff_ne_zero.1 hpos
  simp [schedStep, hpos, batchSaveLogs, h0]

/-- C1: no double-flush.  Injecting the entries of `es1`, firing the
timer, injecting the entries of `es2`, and firing the timer again hands
the Batch Writer exactly the two batches `es1` and `es2` in order — their
concatenation is all injected entries, nothing is written twice or lost —
and the PendingBatch is empty afterwards. -/
theorem flush_no_double (store : Store) (es1 es2 : List LogEntry)
    (h1 : es1 ≠ []) (h2 : es2 ≠ []) :
    (runSched store initState
        (es1.map Event.entryArrived
          ++ Event.timerFired :: (es2.map Event.entryArrived ++ [Event.timerFired]))).written
      = [es1, es2]
    ∧ (runSched store initState
        (es1.map Event.entryArrived
          ++ Event.timerFired :: (es2.map Event.entryArrived ++ [Event.timerFired]))).logs
      = [] := by
  have hsplit : es1.map Event.entryArrived
      ++ Event.timerFired :: (es2.map Event.entryArrived ++ [Event.timerFired])
      = ((es1.map Event.entryArrived ++ [Event.timerFired]) ++ es2.map Event.entryArrived)
        ++ [Event.timerFired] := by simp
  have hA : runSched store initState (es1.map Event.entryArrived)
      = (⟨es1, [], [], []⟩ : SchedState) := by
    rw [runSched_entries]
    rfl
  have t1 := schedStep_tick_fields store ⟨es1, [], [], []⟩ (by simpa using h1)
  have hS1 : runSched store initState (es1.map Event.entryArrived ++ [Event.timerFired])
      = schedStep store ⟨es1, [], [], []⟩ Event.timerFired := by
    rw [runSched_append, hA, runSched_single]
  have hS3 : runSched store initState
        ((es1.map Event.entryArrived ++ [Event.timerFired]) ++ es2.map Event.entryArrived)
      = { schedStep store ⟨es1, [], [], []⟩ Event.timerFired with
          logs := (schedStep store ⟨es1, [], [], []⟩ Event.timerFired).logs ++ es2 } := by
    rw [runSched_append, hS1, runSched_entries]
  have hlogs3 : ({ schedStep store ⟨es1, [], [], []⟩ Event.timerFired with
          logs := (schedStep store ⟨es1, [], [], []⟩ Event.timerFired).logs ++ es2 }
        : SchedState).logs = es2 := by
    simp [t1.1]
  have t2 := schedStep_tick_fields store
      { schedStep store ⟨es1, [], [], []⟩ Event.timerFired with
        logs := (schedStep store ⟨es1, [], [], []⟩ Event.timerFired).logs ++ es2 }
      (by rw [hlogs3]; exact h2)
  rw [hsplit, runSched_append, hS3, runSched_single]
  refine ⟨?_, t2.1⟩
  rw [t2.2.1]
  have hw3 : ({ schedStep store ⟨es1, [], [], []⟩ Event.timerFired with
          logs := (schedStep store ⟨es1, [], [], []⟩ Event.timerFired).logs ++ es2 }
        : SchedState).written
      = (schedStep store ⟨es1, [], [], []⟩ Event.timerFired).written := rfl
  rw [hw3, hlogs3]
  have hw2 : (schedStep store ⟨es1, [], [], []⟩ Event.timerFired).written = [es1] := by
    simpa using t1.2.1
  rw [hw2]
  rfl

/-- C1 witness: one entry per batch, two flushes, two singleton batches. -/
theorem flush_no_double_check :
    (runSched storeNone initState
        ([⟨"a".toList, 0, "x".toList⟩].map Event.entryArrived
          ++ Event.timerFired
            :: ([⟨"b".toList, 1, "y".toList⟩].map Event.entryArrived ++ [Event.timerFired]))).written
      = [[⟨"a".toList, 0, "x".toList⟩], [⟨"b".toList, 1, "y".toList⟩]]
    ∧ (runSched storeNone initState
        ([⟨"a".toList, 0, "x".toList⟩].map Event.entryArrived
          ++ Event.timerFired
            :: ([⟨"b".toList, 1, "y".toList⟩].map Event.entryArrived ++ [Event.timerFired]))).logs
      = [] :=
  flush_no_double storeNone [⟨"a".toList, 0, "x".toList⟩] [⟨"b".toList, 1, "y".toList⟩]
    (by decide) (by decide)

/-- C4: flushing an empty PendingBatch is a no-op — a timer fire with no
accumulated entries leaves the scheduler state unchanged (no store call,
no batch handed over, no error logged), and `batchSaveLogs` on an empty
sequence returns success without building any insert statement. -/
theorem empty_flush_noop (store : Store) (st : SchedState) (h : st.logs = []) :
    schedStep store st Event.timerFired = st
    ∧ batchSaveLogs store [] = (none, []) := by
  constructor
  · simp [schedStep, h]
  · rfl

/-- C4 witness: the initial state has an empty batch and a timer fire
leaves it untouched. -/
theorem empty_flush_noop_check :
    schedStep storeNone initState Event.timerFired = initState
    ∧ batchSaveLogs storeNone [] = (none, []) :=
  empty_flush_noop storeNone initState rfl

/-- C6 (amended): the code has no shutdown drain.  The flush loop's event
alphabet is only channel receives and timer fires; a run that ends (the
process exits) right after entries arrived leaves them in the
PendingBatch with no batch handed over and no store call made — entries
enqueued just before shutdown are lost, not flushed. -/
theorem shutdown_no_drain (store : Store) (es : List LogEntry) :
    (runSched store initState (es.map Event.entryArrived)).logs = es
    ∧ (runSched store initState (es.map Event.entryArrived)).written = []
    ∧ (runSched store initState (es.map Event.entryArrived)).calls = [] := by
  rw [runSched_entries]
  simp [initState]

/-- C6 counterexample: a concrete entry received just before the process
exits is still sitting in the PendingBatch at exit — no flush happened,
no store call was made, the entry is lost rather than persisted. -/
theorem shutdown_drain_counterexample :
    (runSched storeNone initState
        [Event.entryArrived ⟨"web".toList, 0, "boot ok".toList⟩]).logs
      = [⟨"web".toList, 0, "boot ok".toList⟩]
    ∧ (runSched storeNone initState
        [Event.entryArrived ⟨"web".toList, 0, "boot ok".toList⟩]).written = []
    ∧ (runSched storeNone initState
        [Event.entryArrived ⟨"web".toList, 0, "boot ok".toList⟩]).calls = [] := by
  decide

lemma buildArgs_eq_join : ∀ logs : List LogEntry,
    buildArgsLoop logs = (logs.map entryArgs).flatten := by
  intro logs
  induction logs with
  | nil => rfl
  | cons l ls ih => simp [buildArgsLoop, ih]

lemma trimSuffix_last (y : Str) (c : Char) : trimSuffix (y ++ [c]) [c] = y := by
  have hcond : leadsWith ([c] : Str).reverse (y ++ [c]).reverse = true := by
    simp [leadsWith]
  rw [trimSuffix, if_pos hcond]
  have hlen : (y ++ [c]).length - ([c] : Str).length = y.length := by simp
  rw [hlen]
  exact List.take_left y [c]

lemma intercalate_comma_cons (t u : Str) (ts : List Str) :
    List.intercalate [','] (t :: u :: ts) = t ++ ',' :: List.intercalate [','] (u :: ts) := by
  simp [List.intercalate, List.intersperse_cons₂]

lemma buildQueryLoop_eq : ∀ (logs : List LogEntry) (i : Nat), logs ≠ [] →
    buildQueryLoop i logs
      = List.intercalate [','] ((List.range logs.length).map (fun j => placeholderTuple (i + j)))
        ++ [','] := by
  intro logs
  induction logs with
  | nil => intro i h; exact absurd rfl h
  | cons l ls ih =>
    intro i _
    cases ls with
    | nil =>
      simp [buildQueryLoop, List.intercalate, show List.range 1 = [0] from rfl,
        List.intersperse_singleton]
    | cons l2 ls2 =>
      have hne : (l2 :: ls2 : List LogEntry) ≠ [] := by simp
      have step := ih (i + 1) hne
      rw [buildQueryLoop, step]
      have hlen : (l :: l2 :: ls2 : List LogEntry).length
          = (l2 :: ls2 : List LogEntry).length + 1 := rfl
      rw [hlen, List.range_succ_eq_map, List.map_cons, List.map_map]
      have hmap : (List.range (l2 :: ls2 : List LogEntry).length).map
            ((fun j => placeholderTuple (i + j)) ∘ Nat.succ)
          = (List.range (l2 :: ls2 : List LogEntry).length).map
              (fun j => placeholderTuple (i + 1 + j)) := by
        apply List.map_congr_left
        intro j _
        show placeholderTuple (i + Nat.succ j) = placeholderTuple (i + 1 + j)
        congr 1
        omega
      rw [hmap]
      simp only [Nat.add_zero]
      obtain ⟨m, ms, hm⟩ := List.exists_cons_of_ne_nil
        (show (List.range (l2 :: ls2 : List LogEntry).length).map
            (fun j => placeholderTuple (i + 1 + j)) ≠ [] by simp)
      rw [hm, intercalate_comma_cons, ← hm]
      simp

/-- C3: for a non-empty batch, `batchSaveLogs` builds exactly one
multi-row insert statement — the fixed head followed by one
comma-separated placeholder tuple per entry — whose argument list is the
entries' sources, timestamps and messages flattened in batch order,
executes it as a single store call, and returns exactly that call's
result (an error if and only if the store call fails). -/
theorem batch_writer_single_insert (store : Store) (logs : List LogEntry)
    (h : logs ≠ []) :
    batchSaveLogs store logs
      = (store (buildQuery logs) ((logs.map entryArgs).flatten),
         [(buildQuery logs, (logs.map entryArgs).flatten)])
    ∧ buildQuery logs
      = queryHead ++ List.intercalate [','] ((List.range logs.length).map placeholderTuple) := by
  have hpos : 0 < logs.length := List.length_pos.2 h
  have h0 : ¬ logs.length = 0 := by omega
  constructor
  · rw [← buildArgs_eq_join]
    simp [batchSaveLogs, h0]
  · rw [buildQuery, buildQueryLoop_eq logs 0 h, ← List.append_assoc, trimSuffix_last]
    simp [Nat.zero_add]

/-- C3 witness: the spec scenario batch of two entries yields the
two-tuple insert statement and the six arguments in order. -/
theorem batch_writer_single_insert_check :
    batchSaveLogs storeNone
        [⟨"web".toList, 0, "boot ok".toList⟩, ⟨"worker".toList, 1, "job done".toList⟩]
      = (none,
         [("INSERT INTO logs (source, timestamp, message) VALUES ($1, $2, $3),($4, $5, $6)".toList,
           [Arg.s ("web".toList), Arg.t 0, Arg.s ("boot ok".toList),
            Arg.s ("worker".toList), Arg.t 1, Arg.s ("job done".toList)])]) := by
  rw [(batch_writer_single_insert storeNone
      [⟨"web".toList, 0, "boot ok".toList⟩, ⟨"worker".toList, 1, "job done".toList⟩]
      (by decide)).1]
  decide

/-- A store that always fails, for concrete runs. -/
def storeFail : Store := fun _ _ => some ("write failed".toList)

/-- The HTTP status a system event sends back to its producer, if any. -/
def ackOf : SysEvent → Option Nat
  | .request ua body now => some (receiveLogs ua body now).1
  | .tick => none

lemma sysRun_acks (store : Store) :
    ∀ (evs : List SysEvent) (st : SysState),
      (sysRun store st evs).acks = st.acks ++ evs.filterMap ackOf := by
  intro evs
  induction evs with
  | nil => intro st; simp [sysRun]
  | cons ev evs ih =>
    intro st
    have h1 : sysRun store st (ev :: evs) = sysRun store (sysStep store st ev) evs := rfl
    rw [h1, ih]
    cases ev with
    | request ua body now =>
      simp [sysStep, ackOf, List.filterMap_cons]
    | tick =>
      simp [sysStep, ackOf, List.filterMap_cons]

/-- C5: a failing store write is terminal for the batch and invisible to
producers.  When the single store call of a timer-fired flush fails, the
error is only logged, the batch is still handed over exactly once and not
requeued (the PendingBatch is cleared), and the acknowledgments returned
to producers over any run of the server are identical whatever the store
does — every producer got its status before and independently of the
flush outcome. -/
theorem store_failure_terminal (store store2 : Store) (st : SchedState)
    (err : Err) (evs : List SysEvent) (h : st.logs ≠ [])
    (hf : store (buildQuery st.logs) (buildArgsLoop st.logs) = some err) :
    (schedStep store st Event.timerFired).logs = []
    ∧ (schedStep store st Event.timerFired).loggedErrors = st.loggedErrors ++ [err]
    ∧ (schedStep store st Event.timerFired).written = st.written ++ [st.logs]
    ∧ (sysRun store sysInit evs).acks = (sysRun store2 sysInit evs).acks := by
  have hpos : st.logs.length > 0 := List.length_pos.2 h
  have h0 : ¬ st.logs.length = 0 := by omega
  refine ⟨?_, ?_, ?_, ?_⟩
  · simp [schedStep, hpos, batchSaveLogs, h0]
  · simp [schedStep, hpos, batchSaveLogs, h0, hf]
  · simp [schedStep, hpos, batchSaveLogs, h0]
  · rw [sysRun_acks store, sysRun_acks store2]

/-- C5 witness: a concrete failing store — batch cleared, error logged,
batch handed over once, and acknowledgments equal to those under a
succeeding store. -/
theorem store_failure_terminal_check :
    (schedStep storeFail ⟨[⟨"web".toList, 0, "hi".toList⟩], [], [], []⟩ Event.timerFired).logs = []
    ∧ (schedStep storeFail ⟨[⟨"web".toList, 0, "hi".toList⟩], [], [], []⟩
          Event.timerFired).loggedErrors = [] ++ ["write failed".toList]
    ∧ (schedStep storeFail ⟨[⟨"web".toList, 0, "hi".toList⟩], [], [], []⟩
          Event.timerFired).written = [] ++ [[⟨"web".toList, 0, "hi".toList⟩]]
    ∧ (sysRun storeFail sysInit
          [SysEvent.request ("Logplex".toList) ("web hi".toList) 0, SysEvent.tick]).acks
        = (sysRun storeNone sysInit
          [SysEvent.request ("Logplex".toList) ("web hi".toList) 0, SysEvent.tick]).acks :=
  store_failure_terminal storeFail storeNone
    ⟨[⟨"web".toList, 0, "hi".toList⟩], [], [], []⟩ ("write failed".toList)
    [SysEvent.request ("Logplex".toList) ("web hi".toList) 0, SysEvent.tick]
    (by decide) rfl

/-- C7 (amended): append and flush are mutually exclusive — the entry
case's append and the ticker case's store write and batch clear all
happen with the mutex held — but the critical section of the ticker case
spans the whole flush including the store write, and the single consumer
loop performs no append while flushing, so entries arriving during a
batch write wait in the channel rather than accumulating into the next
batch. -/
theorem mutex_spans_flush :
    occursLocked entryCaseActions MicroAction.appendEntry = true
    ∧ occursLocked (tickCaseActions true) MicroAction.storeWrite = true
    ∧ occursLocked (tickCaseActions true) MicroAction.clearBatch = true
    ∧ (tickCaseActions true).contains MicroAction.appendEntry = false
    ∧ (tickCaseActions false).contains MicroAction.storeWrite = false := by
  decide

/-- C7 counterexample: in the ticker case with a non-empty batch the
store write itself runs with the mutex held — the critical section is not
limited to the append/swap. -/
theorem mutex_not_released_for_write :
    occursLocked (tickCaseActions true) MicroAction.storeWrite = true := by
  decide

/-- C8: the ingestion buffer is the fixed-capacity channel of 100
entries; a send into a full buffer does not complete and does not drop
the entry, a receive frees a slot after which the pending send completes
and appends exactly that entry, and no successful send ever grows the
buffer beyond its capacity. -/
theorem buffer_capacity_blocking (ch rest : List LogEntry) (e a : LogEntry)
    (hfull : ch.length = logChannelCapacity) :
    logChannelCapacity = 100
    ∧ chanSend ch e = none
    ∧ (chanRecv ch = some (a, rest) → chanSend rest e = some (rest ++ [e]))
    ∧ (∀ (b : List LogEntry) (x : LogEntry) (b2 : List LogEntry),
        chanSend b x = some b2 → b2 = b ++ [x] ∧ b2.length ≤ logChannelCapacity) := by
  refine ⟨rfl, ?_, ?_, ?_⟩
  · simp [chanSend, hfull]
  · intro hr
    cases ch with
    | nil => simp [chanRecv] at hr
    | cons c cs =>
      simp [chanRecv] at hr
      obtain ⟨rfl, rfl⟩ := hr
      have hlen : cs.length + 1 = logChannelCapacity := by
        simpa using hfull
      have : cs.length < logChannelCapacity := by omega
      simp [chanSend, this]
  · intro b x b2 hs
    by_cases hb : b.length < logChannelCapacity
    · rw [chanSend, if_pos hb] at hs
      cases hs
      constructor
      · rfl
      · simp [logChannelCapacity] at hb ⊢
        omega
    · rw [chanSend, if_neg hb] at hs
      cases hs

/-- C8 witness: a buffer holding 100 entries blocks the 101st send; after
one receive the send completes. -/
theorem buffer_capacity_blocking_check :
    chanSend (List.replicate 100 ⟨"w".toList, 0, "m".toList⟩) ⟨"w".toList, 0, "m".toList⟩
      = none
    ∧ chanSend (List.replicate 99 ⟨"w".toList, 0, "m".toList⟩) ⟨"w".toList, 0, "m".toList⟩
      = some (List.replicate 99 ⟨"w".toList, 0, "m".toList⟩ ++ [⟨"w".toList, 0, "m".toList⟩]) := by
  have h := buffer_capacity_blocking (List.replicate 100 ⟨"w".toList, 0, "m".toList⟩)
    (List.replicate 99 ⟨"w".toList, 0, "m".toList⟩)
    ⟨"w".toList, 0, "m".toList⟩ ⟨"w".toList, 0, "m".toList⟩ (by simp [logChannelCapacity])
  refine ⟨h.2.1, h.2.2.1 ?_⟩
  show chanRecv (List.replicate 100 ⟨"w".toList, 0, "m".toList⟩) = _
  rw [show (List.replicate 100 (⟨"w".toList, 0, "m".toList⟩ : LogEntry))
      = ⟨"w".toList, 0, "m".toList⟩ :: List.replicate 99 ⟨"w".toList, 0, "m".toList⟩ from rfl]
  rfl

/-- C10: a POST /logs request is admitted exactly when the User-Agent
contains "Logplex" or "logfwd"; otherwise the status is 401 and nothing
is enqueued.  The ingestion route carries no middleware, while the GET
/logs retrieval route carries the API-key and rate-limit middlewares. -/
theorem ingest_admission_routes (ua body : Str) (now : Nat) :
    ((receiveLogs ua body now).1 = 401
      ↔ (strContains ua ("Logplex".toList) || strContains ua ("logfwd".toList)) = false)
    ∧ ((strContains ua ("Logplex".toList) || strContains ua ("logfwd".toList)) = false →
        receiveLogs ua body now = (401, none))
    ∧ mwsOf ("POST".toList) ("/logs".toList) = []
    ∧ mwsOf ("GET".toList) ("/logs".toList) = [Mw.apiAuthentication, Mw.rateLimitMiddleware] := by
  have hroutes1 : mwsOf ("POST".toList) ("/logs".toList) = [] := by decide
  have hroutes2 : mwsOf ("GET".toList) ("/logs".toList)
      = [Mw.apiAuthentication, Mw.rateLimitMiddleware] := by decide
  cases hor : (strContains ua ("Logplex".toList) || strContains ua ("logfwd".toList)) with
  | false =>
    have hcond : (!strContains ua ("Logplex".toList)
        && !strContains ua ("logfwd".toList)) = true := by
      rw [← Bool.not_or, hor]
      rfl
    refine ⟨?_, ?_, hroutes1, hroutes2⟩
    · unfold receiveLogs
      rw [hcond]
      simp
    · intro _
      unfold receiveLogs
      rw [hcond]
      simp
  | true =>
    have hcond : (!strContains ua ("Logplex".toList)
        && !strContains ua ("logfwd".toList)) = false := by
      rw [← Bool.not_or, hor]
      rfl
    refine ⟨?_, ?_, hroutes1, hroutes2⟩
    · unfold receiveLogs
      rw [hcond]
      cases hd : decodeLine body with
      | none => simp
      | some sm => obtain ⟨src, msg⟩ := sm; simp
    · intro hfalse
      simp at hfalse

/-- C10 witness: a plain curl User-Agent is rejected with 401 and nothing
is enqueued, and the POST route carries no middleware. -/
theorem ingest_admission_routes_check :
    receiveLogs ("curl/8.0".toList) ("web hi".toList) 0 = (401, none)
    ∧ mwsOf ("POST".toList) ("/logs".toList) = [] :=
  ⟨(ingest_admission_routes ("curl/8.0".toList) ("web hi".toList) 0).2.1 (by decide),
   (ingest_admission_routes ("curl/8.0".toList) ("web hi".toList) 0).2.2.1⟩

end LogSrv
